import Mathlib

/-!
Verification development for the applicationset template-rendering utilities
(`pkg/utils/util.go`): the dual-mode renderer `RenderTemplateParams`, the
escaping substitutor `replaceWithFastTemplate` (built on fasttemplate's
token scanner), the go-template evaluator `replaceWithGoTemplate`, the
finalizer-injection rule, and the generator inspector `invalidGenerators` /
`addInvalidGeneratorNames`.

Text processed by the substitutor is modelled as `List Char`.  External
collaborators (JSON/YAML marshalling, the go-template parser) are modelled
as oracle parameters; the library behaviours the code relies on
(fasttemplate's token scan, `strconv.Quote`'s escaping, JSON string
unescaping, text/template's `missingkey` policy) are embedded directly,
following the libraries' documented semantics.
-/

/-- A segment of a parsed fasttemplate template: either literal text, or the
inner content (untrimmed) of a `\x7b\x7b...\x7d\x7d` token. -/
inductive Seg where
  | text (s : List Char)
  | tag (s : List Char)
deriving DecidableEq, Repr

/-- Prepend a character to the leading text segment (the text accumulated
before the next delimiter), creating one if needed. -/
def consText (c : Char) : List Seg → List Seg
  | Seg.text s :: rest => Seg.text (c :: s) :: rest
  | segs => Seg.text [c] :: segs

/-- Prepend a character to the leading tag segment (the tag content
accumulated before the closing delimiter), creating one if needed. -/
def consTag (c : Char) : List Seg → List Seg
  | Seg.tag s :: rest => Seg.tag (c :: s) :: rest
  | segs => Seg.tag [c] :: segs

/-- Model of `fasttemplate.New(s, "\x7b\x7b", "\x7d\x7d")`'s scan as a
two-state character scanner: outside a token (`inTag = false`) text is
accumulated until the first occurrence of the opening delimiter; inside a
token (`inTag = true`) the tag content is accumulated until the first
occurrence of the closing delimiter.  `none` models the "Cannot find end
tag" failure (on which `fasttemplate.New`, as called by
`RenderTemplateParams`, panics). -/
def scanSegs : Bool → List Char → Option (List Seg)
  | false, [] => some [Seg.text []]
  | false, '{' :: '{' :: rest => (scanSegs true rest).map (fun segs => Seg.text [] :: segs)
  | false, c :: rest => (scanSegs false rest).map (consText c)
  | true, [] => none
  | true, '}' :: '}' :: rest => (scanSegs false rest).map (fun segs => Seg.tag [] :: segs)
  | true, c :: rest => (scanSegs true rest).map (consTag c)

/-- `fasttemplate.New`'s parse of a whole template, starting in text state. -/
def parseSegs (s : List Char) : Option (List Seg) :=
  scanSegs false s

/-- Model of Go's `strings.TrimSpace`: strip whitespace from both ends. -/
def trimSpace (s : List Char) : List Char :=
  ((s.dropWhile Char.isWhitespace).reverse.dropWhile Char.isWhitespace).reverse

/-- Lower-case hexadecimal digit, as produced by `strconv.Quote`'s escapes. -/
def hexDigitChar (n : Nat) : Char :=
  if n < 10 then Char.ofNat (48 + n) else Char.ofNat (87 + n)

/-- Model of `strconv.Quote` restricted to one character, without the
surrounding double quotes (the code strips them with
`replacement[1:len(replacement)-1]`): the escapes for quote, backslash and
the named control characters, a hexadecimal escape for the remaining
ASCII control characters, and printable characters kept as they are.
(`strconv.Quote`'s non-ASCII handling, irrelevant to the claims, is
approximated by keeping the character.) -/
def goQuoteChar (c : Char) : List Char :=
  if c = '"' then ['\\', '"']
  else if c = '\\' then ['\\', '\\']
  else if c = '\n' then ['\\', 'n']
  else if c = '\t' then ['\\', 't']
  else if c = '\r' then ['\\', 'r']
  else if c.toNat = 7 then ['\\', 'a']
  else if c.toNat = 8 then ['\\', 'b']
  else if c.toNat = 11 then ['\\', 'v']
  else if c.toNat = 12 then ['\\', 'f']
  else if c.toNat < 32 ∨ c.toNat = 127 then
    ['\\', 'x', hexDigitChar (c.toNat / 16), hexDigitChar (c.toNat % 16)]
  else [c]

/-- The escaping applied to every resolved replacement value by
`replaceWithFastTemplate`: `strconv.Quote(replacement)` with the enclosing
quotes stripped. -/
def goQuoteBody (s : List Char) : List Char :=
  s.foldr (fun c acc => goQuoteChar c ++ acc) []

/-- Hexadecimal digit value, used by the JSON string decoder. -/
def hexVal (c : Char) : Option Nat :=
  if 48 ≤ c.toNat ∧ c.toNat ≤ 57 then some (c.toNat - 48)
  else if 97 ≤ c.toNat ∧ c.toNat ≤ 102 then some (c.toNat - 87)
  else if 65 ≤ c.toNat ∧ c.toNat ≤ 70 then some (c.toNat - 55)
  else none

/-- Model of JSON string-content decoding (what `json.Unmarshal` does to the
characters between the quotes of a string literal): backslash escapes
`\" \\ \/ \b \f \n \r \t \uXXXX` are decoded, any other escape (such as the
`\xHH` form `strconv.Quote` emits for unusual control characters) and any
raw control character is a decoding error. -/
def jsonUnescapeChars : List Char → Option (List Char)
  | [] => some []
  | '\\' :: 'u' :: h1 :: h2 :: h3 :: h4 :: rest3 =>
    match hexVal h1, hexVal h2, hexVal h3, hexVal h4 with
    | some v1, some v2, some v3, some v4 =>
      (jsonUnescapeChars rest3).map
        (fun l => Char.ofNat (((v1 * 16 + v2) * 16 + v3) * 16 + v4) :: l)
    | _, _, _, _ => none
  | '\\' :: e :: rest2 =>
    if e = '"' ∨ e = '\\' ∨ e = '/' then
      (jsonUnescapeChars rest2).map (fun l => e :: l)
    else if e = 'n' then (jsonUnescapeChars rest2).map (fun l => '\n' :: l)
    else if e = 't' then (jsonUnescapeChars rest2).map (fun l => '\t' :: l)
    else if e = 'r' then (jsonUnescapeChars rest2).map (fun l => '\r' :: l)
    else if e = 'b' then (jsonUnescapeChars rest2).map (fun l => Char.ofNat 8 :: l)
    else if e = 'f' then (jsonUnescapeChars rest2).map (fun l => Char.ofNat 12 :: l)
    else none
  | c :: rest =>
    if c = '\\' then none
    else if c.toNat < 32 then none
    else (jsonUnescapeChars rest).map (fun l => c :: l)

/-- The flat string-to-string parameter mapping (`map[string]string` in the
code), modelled as an association list with the map's unique-key lookup. -/
abbrev Params := List (List Char × List Char)

/-- Parameter lookup (`replaceMap[trimmedTag]`). -/
def lookupParam (m : Params) (k : List Char) : Option (List Char) :=
  m.lookup k

/-- The renderer's error taxonomy: invalid input (nil template), marshal and
unmarshal failures (propagated from the serialization library), the
substitutor's unresolved-variable error (`failed to resolve ...`, carrying
the offending token's untrimmed inner content), go-template compile and
execution failures, and the panic raised by `fasttemplate.New` on an
unterminated token. -/
inductive RenderError where
  | invalidInput
  | marshalErr (msg : String)
  | unmarshalErr (msg : String)
  | unresolvedVar (tg : List Char)
  | compileErr (msg : String)
  | executeErr (msg : String)
  | panicked (msg : String)
deriving DecidableEq, Repr

/-- Model of `fasttemplate.Template.ExecuteFuncString` specialised to the
callback of `replaceWithFastTemplate`: text segments are copied verbatim; for
a tag, the inner content is trimmed and looked up in `replaceMap`; an empty
trimmed tag or a failed lookup either writes the original token back
(`allowUnresolved`) or records an unresolved error (overwriting any earlier
one, as the Go closure reassigns `unresolvedErr`) and writes nothing; a
resolved tag writes the escaped replacement.  Returns the accumulated output
together with the final value of `unresolvedErr`. -/
def execSegs (replaceMap : Params) (allowUnresolved : Bool) : List Seg → List Char × Option RenderError
  | [] => ([], none)
  | Seg.text s :: rest =>
    let r := execSegs replaceMap allowUnresolved rest
    (s ++ r.1, r.2)
  | Seg.tag tg :: rest =>
    let r := execSegs replaceMap allowUnresolved rest
    let trimmedTag := trimSpace tg
    match lookupParam replaceMap trimmedTag with
    | some replacement =>
      if trimmedTag = [] then
        if allowUnresolved then ('{' :: '{' :: (tg ++ '}' :: '}' :: r.1), r.2)
        else (r.1, some (r.2.getD (RenderError.unresolvedVar tg)))
      else (goQuoteBody replacement ++ r.1, r.2)
    | none =>
      if allowUnresolved then ('{' :: '{' :: (tg ++ '}' :: '}' :: r.1), r.2)
      else (r.1, some (r.2.getD (RenderError.unresolvedVar tg)))

/-- `replaceWithFastTemplate`: run the substitution over the parsed template;
if an unresolved error was recorded, return it with an empty output string,
otherwise return the substituted text. -/
def replaceWithFastTemplate (fstTmpl : List Seg) (replaceMap : Params)
    (allowUnresolved : Bool) : List Char × Option RenderError :=
  let r := execSegs replaceMap allowUnresolved fstTmpl
  match r.2 with
  | some e => ([], some e)
  | none => (r.1, none)

/-- text/template's `missingkey` execution option, set by the code at parse
time via `Option("missingkey=zero")`: `invalid` (the default) yields an
invalid value printed as `<no value>`, `zero` yields the zero value of the
map's element type (the empty string for `map[string]string`), `error`
aborts execution with an error. -/
inductive MissingKeyPolicy where
  | invalid
  | zero
  | error
deriving DecidableEq, Repr

/-- Model of text/template map indexing under a `missingkey` policy, for a
`map[string]string` data argument: a present key yields its value; a missing
key yields `<no value>` (invalid value printed), the zero value `""`, or an
execution error, according to the policy. -/
def lookupFieldValue (policy : MissingKeyPolicy) (m : Params) (k : List Char) :
    Except String (List Char) :=
  match lookupParam m k with
  | some v => Except.ok v
  | none =>
    match policy with
    | MissingKeyPolicy.invalid => Except.ok ("<no value>".data)
    | MissingKeyPolicy.zero => Except.ok []
    | MissingKeyPolicy.error => Except.error ("map has no entry for key " ++ k.asString)

/-- A node of the modelled go-template fragment: literal text, or a
reference `\x7b\x7b.key\x7d\x7d` to an entry of the data map. -/
inductive GoNode where
  | text (s : List Char)
  | field (k : List Char)
deriving DecidableEq, Repr

/-- A parsed go-template (`template.Template`): the node list produced by
`Parse` together with the `missingkey` policy fixed at parse time. -/
structure GoTemplate where
  missingKey : MissingKeyPolicy
  nodes : List GoNode
deriving DecidableEq, Repr

/-- Model of `template.Template.Execute` over the modelled fragment: text is
emitted verbatim, field references are resolved against the data map under
the template's `missingkey` policy; the first error aborts execution. -/
def goTemplateExecute (policy : MissingKeyPolicy) (replaceMap : Params) :
    List GoNode → Except String (List Char)
  | [] => Except.ok []
  | GoNode.text s :: rest =>
    (goTemplateExecute policy replaceMap rest).map (fun out => s ++ out)
  | GoNode.field k :: rest =>
    match lookupFieldValue policy replaceMap k with
    | Except.error e => Except.error e
    | Except.ok v =>
      (goTemplateExecute policy replaceMap rest).map (fun out => v ++ out)

/-- `replaceWithGoTemplate`: execute the parsed go-template against the
replacement map; an execution failure yields an empty string and the error. -/
def replaceWithGoTemplate (goTemplate : GoTemplate) (replaceMap : Params) :
    List Char × Option RenderError :=
  match goTemplateExecute goTemplate.missingKey replaceMap goTemplate.nodes with
  | Except.error e => ([], some (RenderError.executeErr e))
  | Except.ok s => (s, none)

/-- The rendered application object.  Of the externally defined
`argov1alpha1.Application` structure only `ObjectMeta.Finalizers` is read or
written by this code (a nil slice and an empty slice are distinct in Go,
hence the `Option`); everything else round-trips opaquely through the
serialization oracles. -/
structure Application where
  Finalizers : Option (List String)
deriving DecidableEq, Repr

/-- Modelled from the spec: the optional sync policy "carries a single
relevant boolean flag, `PreserveResourcesOnDeletion`" (the defining api
package is not part of the sources). -/
structure ApplicationSetSyncPolicy where
  PreserveResourcesOnDeletion : Bool
deriving DecidableEq, Repr

/-- Modelled from the spec: the optional template options "carry a single
relevant boolean flag, `GotemplateEnabled`" (the defining api package is not
part of the sources). -/
structure ApplicationSetTemplateOptions where
  GotemplateEnabled : Bool
deriving DecidableEq, Repr

/-- The fixed finalizer value injected by the renderer. -/
def resourcesFinalizerName : String := "resources-finalizer.argocd.argoproj.io"

/-- The condition of the finalizer rule (lines 86-87): no sync policy or
preservation disabled, and a nil or empty finalizers list. -/
def finalizerNeeded (syncPolicy : Option ApplicationSetSyncPolicy)
    (replacedTmpl : Application) : Bool :=
  (match syncPolicy with
   | none => true
   | some sp => !sp.PreserveResourcesOnDeletion)
  && (match replacedTmpl.Finalizers with
      | none => true
      | some l => l.length == 0)

/-- The finalizer rule applied to the freshly deserialized object (lines
86-90): when `finalizerNeeded`, set the finalizers list to exactly the
one-element list `[resourcesFinalizerName]`; otherwise leave the object
untouched. -/
def addFinalizer (syncPolicy : Option ApplicationSetSyncPolicy)
    (replacedTmpl : Application) : Application :=
  if finalizerNeeded syncPolicy replacedTmpl then
    { replacedTmpl with Finalizers := some [resourcesFinalizerName] }
  else replacedTmpl

/-- The serialization collaborators of the renderer, out of scope for this
code and hence abstract: JSON and YAML marshalling of the application object
and the go-template parser (`template.New(...).Parse`); each may fail with a
message. -/
structure SerdeOracle where
  jsonMarshal : Application → Except String (List Char)
  jsonUnmarshal : List Char → Except String Application
  yamlMarshal : Application → Except String (List Char)
  yamlUnmarshal : List Char → Except String Application
  goParse : List Char → Except String (List GoNode)

/-- The fast (JSON) branch of `RenderTemplateParams` (lines 42-56): JSON
marshal, parse with fasttemplate (a panic on an unterminated token), run the
escaping substitutor with `allowUnresolved = true`, JSON unmarshal. -/
def renderFastPath (o : SerdeOracle) (tmpl : Application) (params : Params) :
    Except RenderError Application :=
  match o.jsonMarshal tmpl with
  | Except.error e => Except.error (RenderError.marshalErr e)
  | Except.ok tmplBytes =>
    match parseSegs tmplBytes with
    | none => Except.error (RenderError.panicked "Cannot find end tag")
    | some fstTmpl =>
      match replaceWithFastTemplate fstTmpl params true with
      | (_, some e) => Except.error e
      | (replacedTmplStr, none) =>
        match o.jsonUnmarshal replacedTmplStr with
        | Except.error e => Except.error (RenderError.unmarshalErr e)
        | Except.ok replacedTmpl => Except.ok replacedTmpl

/-- The go-template (YAML) branch of `RenderTemplateParams` (lines 57-78):
YAML marshal, parse with `missingkey=zero` fixed by the code, execute the
template, YAML unmarshal. -/
def renderGoTemplatePath (o : SerdeOracle) (tmpl : Application) (params : Params) :
    Except RenderError Application :=
  match o.yamlMarshal tmpl with
  | Except.error e => Except.error (RenderError.marshalErr e)
  | Except.ok tmplBytes =>
    match o.goParse tmplBytes with
    | Except.error e => Except.error (RenderError.compileErr e)
    | Except.ok nodes =>
      match replaceWithGoTemplate ⟨MissingKeyPolicy.zero, nodes⟩ params with
      | (_, some e) => Except.error e
      | (replacedTmplStr, none) =>
        match o.yamlUnmarshal replacedTmplStr with
        | Except.error e => Except.error (RenderError.unmarshalErr e)
        | Except.ok replacedTmpl => Except.ok replacedTmpl

/-- The dispatch condition of line 41 (`templateOptions == nil ||
!templateOptions.GotemplateEnabled`, negated): absent options count as the
flag being false. -/
def gotemplateEnabled : Option ApplicationSetTemplateOptions → Bool
  | none => false
  | some topts => topts.GotemplateEnabled

/-- `RenderTemplateParams`: nil template fails with the invalid-input error;
empty params return the template unchanged; otherwise dispatch on
`templateOptions.GotemplateEnabled` (absent counts as false) to the fast or
the go-template branch, and apply the finalizer rule to the deserialized
object.  The Go pair return `(*Application, error)` is modelled as
`Option Application × Option RenderError`. -/
def RenderTemplateParams (o : SerdeOracle) (tmpl : Option Application)
    (syncPolicy : Option ApplicationSetSyncPolicy)
    (templateOptions : Option ApplicationSetTemplateOptions)
    (params : Params) : Option Application × Option RenderError :=
  match tmpl with
  | none => (none, some RenderError.invalidInput)
  | some t =>
    if params.length == 0 then (some t, none)
    else
      match (if !gotemplateEnabled templateOptions then renderFastPath o t params
             else renderGoTemplatePath o t params) with
      | Except.error e => (none, some e)
      | Except.ok replacedTmpl => (some (addFinalizer syncPolicy replacedTmpl), none)

/-- A generic JSON tree, the shape `json.Unmarshal` produces into
`map[string]interface\x7b\x7d` members: objects are association lists (Go map
iteration order being unspecified, the "first key" the code takes is
modelled as the list head). -/
inductive Json where
  | null
  | bool (b : Bool)
  | num (n : Int)
  | str (s : String)
  | arr (xs : List Json)
  | obj (fields : List (String × Json))

/-- The type assertion `.(map[string]interface\x7b\x7d)` on a generic JSON
value: succeeds only on an object. -/
def asObj : Json → Option (List (String × Json))
  | Json.obj fields => some fields
  | _ => none

/-- The type assertion `.([]interface\x7b\x7d)` on a generic JSON value:
succeeds only on an array. -/
def asArr : Json → Option (List Json)
  | Json.arr xs => some xs
  | _ => none

/-- Modelled from the spec: a generator record is "a polymorphic record
where exactly one of several named optional variant slots is expected to be
populated (non-null); all slots null/absent signals an unrecognized or
malformed generator" (the api package defining `ApplicationSetGenerator` is
not part of the sources; the reflective walk over its pointer fields is
modelled as a list of optional slots). -/
structure ApplicationSetGenerator where
  slots : List (Option Unit)
deriving DecidableEq, Repr

/-- The part of the externally defined `ApplicationSet` object this code
reads: its name, its metadata annotations (a string map, missing keys
reading as `""`), and the generator sequence of its spec. -/
structure ApplicationSet where
  name : String
  annotations : List (String × String)
  generators : List ApplicationSetGenerator

/-- Go string-map indexing with the zero-value default for a missing key. -/
def lookupStringMap (m : List (String × String)) (k : String) : String :=
  (m.lookup k).getD ""

/-- The well-known annotation key the inspector reads. -/
def lastAppliedConfigKey : String := "kubectl.kubernetes.io/last-applied-configuration"

/-- The reflective validity scan over one generator record: `found` is true
iff some variant slot is non-nil. -/
def generatorFieldFound (g : ApplicationSetGenerator) : Bool :=
  g.slots.any Option.isSome

/-- Go map insertion `names[key] = true`, on the key-set view of the map. -/
def insertName (k : String) (names : List String) : List String :=
  if k ∈ names then names else names ++ [k]

/-- `addInvalidGeneratorNames`: read the last-applied-configuration
annotation, parse it (`parse` models `json.Unmarshal` into
`map[string]interface\x7b\x7d`; `none` is an unmarshal error), navigate
`spec.generators[index]`, and add the first key of that object to `names`.
Every failed step logs a warning and leaves `names` unchanged. -/
def addInvalidGeneratorNames (parse : String → Option (List (String × Json)))
    (names : List String) (applicationSetInfo : ApplicationSet) (index : Nat) :
    List String :=
  let config := lookupStringMap applicationSetInfo.annotations lastAppliedConfigKey
  match parse config with
  | none => names
  | some values =>
    match (values.lookup "spec").bind asObj with
    | none => names
    | some spec =>
      match (spec.lookup "generators").bind asArr with
      | none => names
      | some generators =>
        if generators.length ≤ index then names
        else
          match (generators.get? index).bind asObj with
          | none => names
          | some generator =>
            match generator with
            | [] => names
            | (key, _) :: _ => insertName key names

/-- One iteration of `invalidGenerators`'s loop over the indexed generator
sequence: a record with some populated variant slot is skipped; otherwise
the invalid flag is set and name recovery is attempted for its index. -/
def invalidGeneratorsStep (parse : String → Option (List (String × Json)))
    (applicationSetInfo : ApplicationSet) (acc : Bool × List String)
    (ig : Nat × ApplicationSetGenerator) : Bool × List String :=
  if generatorFieldFound ig.2 then acc
  else (true, addInvalidGeneratorNames parse acc.2 applicationSetInfo ig.1)

/-- `invalidGenerators`: walk the generator sequence by index; every record
with no populated variant slot sets the invalid flag and attempts name
recovery for its index. -/
def invalidGenerators (parse : String → Option (List (String × Json)))
    (applicationSetInfo : ApplicationSet) : Bool × List String :=
  applicationSetInfo.generators.enum.foldl
    (invalidGeneratorsStep parse applicationSetInfo) (false, [])

/-- The composition of lines 47-48: tokenize the serialized text with
fasttemplate (`none` models the panic on an unterminated token) and run the
escaping substitutor over it. -/
def fastSubstitute (s : List Char) (m : Params) (allowUnresolved : Bool) :
    Option (List Char × Option RenderError) :=
  (parseSegs s).map (fun segs => replaceWithFastTemplate segs m allowUnresolved)

/-- The tag contents of a parsed template, in scan order. -/
def segTags : List Seg → List (List Char)
  | [] => []
  | Seg.text _ :: rest => segTags rest
  | Seg.tag tg :: rest => tg :: segTags rest

/-- A tag the substitutor's callback treats as unresolved: its trimmed
content is empty or absent from the mapping. -/
def tagUnresolved (m : Params) (tg : List Char) : Bool :=
  (trimSpace tg).isEmpty || (lookupParam m (trimSpace tg)).isNone

/-- The unresolved tags of a parsed template, in scan order. -/
def unresolvedTags (m : Params) (segs : List Seg) : List (List Char) :=
  (segTags segs).filter (tagUnresolved m)

theorem execSegs_tag_unresolved (m : Params) (b : Bool) (tg : List Char)
    (rest : List Seg) (h : tagUnresolved m tg = true) :
    execSegs m b (Seg.tag tg :: rest) =
      if b then
        ('{' :: '{' :: (tg ++ '}' :: '}' :: (execSegs m b rest).1),
          (execSegs m b rest).2)
      else
        ((execSegs m b rest).1,
          some ((execSegs m b rest).2.getD (RenderError.unresolvedVar tg))) := by
  rw [tagUnresolved, Bool.or_eq_true] at h
  cases hl : lookupParam m (trimSpace tg) with
  | none =>
    simp only [execSegs, hl]
  | some v =>
    rw [hl] at h
    have ht : trimSpace tg = [] := by
      rcases h with h | h
      · exact List.isEmpty_iff.mp h
      · simp at h
    simp only [execSegs, hl]
    rw [if_pos ht]

theorem execSegs_tag_resolved (m : Params) (b : Bool) (tg : List Char)
    (rest : List Seg) (v : List Char) (hne : trimSpace tg ≠ [])
    (hl : lookupParam m (trimSpace tg) = some v) :
    execSegs m b (Seg.tag tg :: rest) =
      (goQuoteBody v ++ (execSegs m b rest).1, (execSegs m b rest).2) := by
  simp only [execSegs, hl]
  rw [if_neg hne]

theorem execSegs_true_no_err (m : Params) :
    ∀ segs : List Seg, (execSegs m true segs).2 = none := by
  intro segs
  induction segs with
  | nil => rfl
  | cons sg rest ih =>
    cases sg with
    | text s => simpa [execSegs]
    | tag tg =>
      by_cases h : tagUnresolved m tg = true
      · rw [execSegs_tag_unresolved m true tg rest h]
        simpa
      · rw [tagUnresolved, Bool.or_eq_true] at h
        push_neg at h
        obtain ⟨h1, h2⟩ := h
        cases hl : lookupParam m (trimSpace tg) with
        | none => rw [hl] at h2; simp at h2
        | some v =>
          rw [execSegs_tag_resolved m true tg rest v
            (fun hc => h1 (by simp [hc, List.isEmpty])) hl]
          simpa

theorem replaceFast_true_ok (segs : List Seg) (m : Params) :
    replaceWithFastTemplate segs m true = ((execSegs m true segs).1, none) := by
  rw [replaceWithFastTemplate]
  have h := execSegs_true_no_err m segs
  simp only [h]

theorem getLastQ_cons {α : Type} (a : α) (l : List α) :
    (a :: l).getLast? = some (l.getLast?.getD a) := by
  cases l with
  | nil => rfl
  | cons b t =>
    rw [List.getLast?_cons_cons]
    have hne : b :: t ≠ [] := by simp
    rw [List.getLast?_eq_getLast _ hne]
    simp

theorem execSegs_false_err (m : Params) :
    ∀ segs : List Seg,
      (execSegs m false segs).2 =
        (unresolvedTags m segs).getLast?.map RenderError.unresolvedVar := by
  intro segs
  induction segs with
  | nil => rfl
  | cons sg rest ih =>
    cases sg with
    | text s =>
      simpa [execSegs, unresolvedTags, segTags] using ih
    | tag tg =>
      by_cases h : tagUnresolved m tg = true
      · rw [execSegs_tag_unresolved m false tg rest h]
        simp only [unresolvedTags, segTags, List.filter_cons, h, if_pos]
        rw [getLastQ_cons]
        cases hu : (unresolvedTags m rest).getLast? with
        | none =>
          rw [unresolvedTags] at hu
          simp only [ih, unresolvedTags, hu]
          rfl
        | some x =>
          rw [unresolvedTags] at hu
          simp only [ih, unresolvedTags, hu]
          rfl
      · have h2 := h
        rw [tagUnresolved, Bool.or_eq_true] at h2
        push_neg at h2
        obtain ⟨h1, h2⟩ := h2
        cases hl : lookupParam m (trimSpace tg) with
        | none => rw [hl] at h2; simp at h2
        | some v =>
          rw [execSegs_tag_resolved m false tg rest v
            (fun hc => h1 (by simp [hc, List.isEmpty])) hl]
          simp only [unresolvedTags, segTags, List.filter_cons]
          rw [if_neg h]
          exact ih

theorem execSegs_text (m : Params) (b : Bool) (s : List Char) (rest : List Seg) :
    execSegs m b (Seg.text s :: rest) =
      (s ++ (execSegs m b rest).1, (execSegs m b rest).2) := by
  simp [execSegs]

theorem scanSegs_false_cons (c : Char) (rest : List Char)
    (hne : ∀ rest2, c = '{' → rest = '{' :: rest2 → False) :
    scanSegs false (c :: rest) = (scanSegs false rest).map (consText c) := by
  rw [scanSegs.eq_def]
  split
  · simp_all
  · next r heq1 heq2 =>
    injection heq2 with hc hr
    exact (hne r hc hr).elim
  · next c2 r2 hside heq1 heq2 =>
    injection heq2 with hc hr
    rw [hc, hr]
  · simp_all
  · simp_all
  · simp_all

theorem scanSegs_true_cons (c : Char) (rest : List Char)
    (hne : ∀ rest2, c = '}' → rest = '}' :: rest2 → False) :
    scanSegs true (c :: rest) = (scanSegs true rest).map (consTag c) := by
  rw [scanSegs.eq_def]
  split
  · simp_all
  · simp_all
  · simp_all
  · simp_all
  · next r heq1 heq2 =>
    injection heq2 with hc hr
    exact (hne r hc hr).elim
  · next c2 r2 hside heq1 heq2 =>
    injection heq2 with hc hr
    rw [hc, hr]

/-- The reassembled text of a parsed template: text segments verbatim and
each tag re-wrapped in its delimiters. -/
def flattenSegs : List Seg → List Char
  | [] => []
  | Seg.text s :: rest => s ++ flattenSegs rest
  | Seg.tag tg :: rest => '{' :: '{' :: (tg ++ '}' :: '}' :: flattenSegs rest)

theorem flattenSegs_consText (c : Char) (segs : List Seg) :
    flattenSegs (consText c segs) = c :: flattenSegs segs := by
  cases segs with
  | nil => rfl
  | cons sg rest =>
    cases sg with
    | text s => simp [consText, flattenSegs]
    | tag tg => simp [consText, flattenSegs]

theorem flattenSegs_consTag (c : Char) (segs : List Seg)
    (h : ∃ tg0 segs2, segs = Seg.tag tg0 :: segs2) :
    flattenSegs (consTag c segs) =
      '{' :: '{' :: c :: (flattenSegs segs).drop 2 := by
  obtain ⟨tg0, segs2, rfl⟩ := h
  simp [consTag, flattenSegs]

theorem consTag_head (c : Char) (segs : List Seg) :
    ∃ tg2 segs2, consTag c segs = Seg.tag tg2 :: segs2 := by
  cases segs with
  | nil => exact ⟨[c], [], rfl⟩
  | cons sg rest =>
    cases sg with
    | text s => exact ⟨[c], Seg.text s :: rest, rfl⟩
    | tag tg => exact ⟨c :: tg, rest, rfl⟩

theorem scanSegs_tag_head (s : List Char) (segs : List Seg)
    (hp : scanSegs true s = some segs) :
    ∃ tg0 segs2, segs = Seg.tag tg0 :: segs2 := by
  cases s with
  | nil => cases hp
  | cons c rest =>
    by_cases hc : ∃ rest2, c = '}' ∧ rest = '}' :: rest2
    · obtain ⟨rest2, hcc, hrr⟩ := hc
      subst hcc hrr
      simp only [scanSegs] at hp
      cases hs : scanSegs false rest2 with
      | none => rw [hs] at hp; cases hp
      | some segs0 =>
        rw [hs] at hp
        cases hp
        exact ⟨[], segs0, rfl⟩
    · push_neg at hc
      rw [scanSegs_true_cons c rest (fun r2 h1 h2 => hc r2 h1 h2)] at hp
      cases hs : scanSegs true rest with
      | none => rw [hs] at hp; cases hp
      | some segs0 =>
        rw [hs] at hp
        cases hp
        exact consTag_head c segs0

theorem scanSegs_flatten :
    ∀ (inTag : Bool) (s : List Char) (segs : List Seg),
      scanSegs inTag s = some segs →
      flattenSegs segs = (if inTag then '{' :: '{' :: s else s) := by
  intro inTag s
  induction inTag, s using scanSegs.induct with
  | case1 =>
    intro segs hp
    cases hp
    rfl
  | case2 rest ih =>
    intro segs hp
    simp only [scanSegs] at hp
    cases hs : scanSegs true rest with
    | none => rw [hs] at hp; cases hp
    | some segs0 =>
      rw [hs] at hp
      cases hp
      have hf := ih segs0 hs
      rw [if_pos rfl] at hf
      simp [flattenSegs, hf]
  | case3 c rest hne ih =>
    intro segs hp
    rw [scanSegs_false_cons c rest (fun r2 h1 h2 => hne r2 h1 h2)] at hp
    cases hs : scanSegs false rest with
    | none => rw [hs] at hp; cases hp
    | some segs0 =>
      rw [hs] at hp
      cases hp
      have hf := ih segs0 hs
      rw [if_neg (by simp)] at hf
      rw [flattenSegs_consText, hf]
      simp
  | case4 =>
    intro segs hp
    cases hp
  | case5 rest ih =>
    intro segs hp
    simp only [scanSegs] at hp
    cases hs : scanSegs false rest with
    | none => rw [hs] at hp; cases hp
    | some segs0 =>
      rw [hs] at hp
      cases hp
      have hf := ih segs0 hs
      rw [if_neg (by simp)] at hf
      simp [flattenSegs, hf]
  | case6 c rest hne ih =>
    intro segs hp
    rw [scanSegs_true_cons c rest (fun r2 h1 h2 => hne r2 h1 h2)] at hp
    cases hs : scanSegs true rest with
    | none => rw [hs] at hp; cases hp
    | some segs0 =>
      rw [hs] at hp
      cases hp
      have hf := ih segs0 hs
      rw [if_pos rfl] at hf
      rw [flattenSegs_consTag c segs0 (scanSegs_tag_head rest segs0 hs), hf]
      simp

theorem execSegs_all_unresolved (m : Params) :
    ∀ segs : List Seg, (∀ tg ∈ segTags segs, tagUnresolved m tg = true) →
      execSegs m true segs = (flattenSegs segs, none) := by
  intro segs
  induction segs with
  | nil => intro _; rfl
  | cons sg rest ih =>
    intro hall
    cases sg with
    | text s =>
      have hr := ih (fun tg htg => hall tg (by simp [segTags, htg]))
      rw [execSegs_text, hr, flattenSegs]
    | tag tg =>
      have htg : tagUnresolved m tg = true := hall tg (by simp [segTags])
      have hr := ih (fun u hu => hall u (by simp [segTags, hu]))
      rw [execSegs_tag_unresolved m true tg rest htg, if_pos rfl, hr, flattenSegs]

theorem fastSubstitute_all_unresolved (m : Params) (s : List Char) (segs : List Seg)
    (hp : parseSegs s = some segs)
    (hall : ∀ tg ∈ segTags segs, tagUnresolved m tg = true) :
    fastSubstitute s m true = some (s, none) := by
  rw [fastSubstitute, hp]
  show some (replaceWithFastTemplate segs m true) = some (s, none)
  rw [replaceFast_true_ok, execSegs_all_unresolved m segs hall]
  have hf := scanSegs_flatten false s segs hp
  rw [if_neg (by simp)] at hf
  rw [hf]

/-- The characters exercised by the escaping claims: the named control
characters with identical Go and JSON escapes, and printable ASCII. -/
def jsonSafeChar (c : Char) : Bool :=
  c = '\n' || c = '\t' || c = '\r' || (32 ≤ c.toNat && c.toNat < 127)

theorem goQuoteChar_printable (c : Char) (h32 : 32 ≤ c.toNat) (h127 : c.toNat < 127)
    (hq : c ≠ '"') (hbs : c ≠ '\\') : goQuoteChar c = [c] := by
  have hn : c ≠ '\n' := fun h => by rw [h] at h32; exact absurd h32 (by decide)
  have ht : c ≠ '\t' := fun h => by rw [h] at h32; exact absurd h32 (by decide)
  have hr : c ≠ '\r' := fun h => by rw [h] at h32; exact absurd h32 (by decide)
  rw [goQuoteChar, if_neg hq, if_neg hbs, if_neg hn, if_neg ht, if_neg hr,
    if_neg (by omega), if_neg (by omega), if_neg (by omega), if_neg (by omega),
    if_neg (by omega)]

theorem jsonUnescape_printable (c : Char) (rest : List Char)
    (h32 : 32 ≤ c.toNat) (h127 : c.toNat < 127) (hbs : c ≠ '\\') :
    jsonUnescapeChars (c :: rest) = (jsonUnescapeChars rest).map (fun l => c :: l) := by
  cases rest with
  | nil =>
    rw [jsonUnescapeChars.eq_def]
    split
    · simp_all
    · simp_all
    · next e r2 hside heq =>
      injection heq with hc hr
      subst hc
      exact absurd rfl hbs
    · next c2 r2 hside1 hside2 heq =>
      injection heq with hc hr
      subst hc hr
      rw [if_neg hbs, if_neg (by omega)]
  | cons d rest2 =>
    rw [jsonUnescapeChars.eq_def]
    split
    · simp_all
    · next hh1 hh2 hh3 hh4 r3 heq =>
      injection heq with hc hr
      subst hc
      exact absurd rfl hbs
    · next e r2 hside heq =>
      injection heq with hc hr
      subst hc
      exact absurd rfl hbs
    · next c2 r2 hside1 hside2 heq =>
      injection heq with hc hr
      subst hc hr
      rw [if_neg hbs, if_neg (by omega)]

theorem jsonUnescape_goQuoteChar (c : Char) (rest : List Char)
    (hsafe : jsonSafeChar c = true) :
    jsonUnescapeChars (goQuoteChar c ++ rest) =
      (jsonUnescapeChars rest).map (fun l => c :: l) := by
  by_cases hq : c = '"'
  · subst hq; rfl
  · by_cases hbs : c = '\\'
    · subst hbs; rfl
    · by_cases hn : c = '\n'
      · subst hn; rfl
      · by_cases ht : c = '\t'
        · subst ht; rfl
        · by_cases hr : c = '\r'
          · subst hr; rfl
          · have hrange : 32 ≤ c.toNat ∧ c.toNat < 127 := by
              rw [jsonSafeChar] at hsafe
              simp [hn, ht, hr] at hsafe
              exact hsafe
            rw [goQuoteChar_printable c hrange.1 hrange.2 hq hbs]
            exact jsonUnescape_printable c rest hrange.1 hrange.2 hbs

theorem jsonUnescape_goQuoteBody (s : List Char)
    (hsafe : ∀ c ∈ s, jsonSafeChar c = true) :
    jsonUnescapeChars (goQuoteBody s) = some s := by
  induction s with
  | nil => rfl
  | cons c rest ih =>
    have hstep : goQuoteBody (c :: rest) = goQuoteChar c ++ goQuoteBody rest := rfl
    rw [hstep, jsonUnescape_goQuoteChar c (goQuoteBody rest) (hsafe c (by simp)),
      ih (fun d hd => hsafe d (by simp [hd]))]
    rfl

theorem goTemplateExecute_zero_ok (m : Params) :
    ∀ nodes : List GoNode,
      ∃ out, goTemplateExecute MissingKeyPolicy.zero m nodes = Except.ok out := by
  intro nodes
  induction nodes with
  | nil => exact ⟨[], rfl⟩
  | cons n rest ih =>
    obtain ⟨out, hout⟩ := ih
    cases n with
    | text s => exact ⟨s ++ out, by simp [goTemplateExecute, hout, Except.map]⟩
    | field k =>
      cases hl : lookupParam m k with
      | none =>
        exact ⟨out, by simp [goTemplateExecute, lookupFieldValue, hl, hout, Except.map]⟩
      | some v =>
        exact ⟨v ++ out, by simp [goTemplateExecute, lookupFieldValue, hl, hout, Except.map]⟩

theorem replaceGo_zero_ok (nodes : List GoNode) (m : Params) :
    ∃ out, replaceWithGoTemplate ⟨MissingKeyPolicy.zero, nodes⟩ m = (out, none) := by
  obtain ⟨out, hout⟩ := goTemplateExecute_zero_ok m nodes
  exact ⟨out, by simp [replaceWithGoTemplate, hout]⟩

theorem renderFastPath_no_unresolved (o : SerdeOracle) (t : Application)
    (params : Params) (tg : List Char) :
    renderFastPath o t params ≠ Except.error (RenderError.unresolvedVar tg) := by
  rw [renderFastPath]
  cases hm : o.jsonMarshal t with
  | error e => simp
  | ok tmplBytes =>
    simp only []
    cases hp : parseSegs tmplBytes with
    | none => simp
    | some fstTmpl =>
      simp only []
      rw [replaceFast_true_ok]
      cases hu : o.jsonUnmarshal (execSegs params true fstTmpl).1 with
      | error e => simp [hu]
      | ok r => simp [hu]

theorem renderGoTemplatePath_no_unresolved (o : SerdeOracle) (t : Application)
    (params : Params) (tg : List Char) :
    renderGoTemplatePath o t params ≠ Except.error (RenderError.unresolvedVar tg) := by
  rw [renderGoTemplatePath]
  cases hm : o.yamlMarshal t with
  | error e => simp
  | ok tmplBytes =>
    simp only []
    cases hg : o.goParse tmplBytes with
    | error e => simp
    | ok nodes =>
      simp only []
      obtain ⟨out, hout⟩ := replaceGo_zero_ok nodes params
      rw [hout]
      cases hu : o.yamlUnmarshal out with
      | error e => simp [hu]
      | ok r => simp [hu]

theorem invalidGenerators_foldl_flag (parse : String → Option (List (String × Json)))
    (info : ApplicationSet) :
    ∀ (l : List (Nat × ApplicationSetGenerator)) (acc : Bool × List String),
      (l.foldl (invalidGeneratorsStep parse info) acc).1 =
        (acc.1 || l.any (fun p => !generatorFieldFound p.2)) := by
  intro l
  induction l with
  | nil => intro acc; simp
  | cons p rest ih =>
    intro acc
    rw [List.foldl_cons, List.any_cons]
    by_cases hf : generatorFieldFound p.2
    · simp [invalidGeneratorsStep, hf, ih]
    · simp [invalidGeneratorsStep, hf, ih]

theorem addInvalid_parse_fail (parse : String → Option (List (String × Json)))
    (names : List String) (info : ApplicationSet) (idx : Nat)
    (hparse : parse (lookupStringMap info.annotations lastAppliedConfigKey) = none) :
    addInvalidGeneratorNames parse names info idx = names := by
  simp [addInvalidGeneratorNames, hparse]

theorem invalidGenerators_foldl_names_empty
    (parse : String → Option (List (String × Json))) (info : ApplicationSet)
    (hparse : parse (lookupStringMap info.annotations lastAppliedConfigKey) = none) :
    ∀ (l : List (Nat × ApplicationSetGenerator)) (acc : Bool × List String),
      acc.2 = [] → (l.foldl (invalidGeneratorsStep parse info) acc).2 = [] := by
  intro l
  induction l with
  | nil => intro acc h; simpa
  | cons p rest ih =>
    intro acc h
    rw [List.foldl_cons]
    by_cases hf : generatorFieldFound p.2
    · exact ih _ (by simpa [invalidGeneratorsStep, hf])
    · exact ih _ (by simp [invalidGeneratorsStep, hf, addInvalid_parse_fail parse _ info _ hparse, h])

theorem any_enumFrom {α : Type} (f : α → Bool) :
    ∀ (l : List α) (n : Nat),
      (List.enumFrom n l).any (fun p => f p.2) = l.any f := by
  intro l
  induction l with
  | nil => intro n; rfl
  | cons a rest ih => intro n; simp [List.enumFrom, List.any_cons, ih]

theorem not_any_isSome (l : List (Option Unit)) :
    (!l.any Option.isSome) = l.all (fun s => s.isNone) := by
  induction l with
  | nil => rfl
  | cons s rest ih => cases s <;> simp_all

/-- A concrete serialization oracle used to exercise the renderer on closed
inputs: every application serializes to the text `\x7b\x7bx\x7d\x7d` and
every text deserializes to the empty application. -/
def oracleStub : SerdeOracle where
  jsonMarshal := fun _ => Except.ok ("\x7b\x7bx\x7d\x7d".data)
  jsonUnmarshal := fun _ => Except.ok ⟨none⟩
  yamlMarshal := fun _ => Except.ok []
  yamlUnmarshal := fun _ => Except.ok ⟨none⟩
  goParse := fun _ => Except.ok []

/-- C4: `RenderTemplateParams` with an empty parameter mapping returns the
template argument itself, unchanged, with no error — the explicit fast path
of lines 34-36, taken before any serialization round-trip or finalizer
handling. -/
theorem C4_empty_params_identity (o : SerdeOracle) (t : Application)
    (syncPolicy : Option ApplicationSetSyncPolicy)
    (templateOptions : Option ApplicationSetTemplateOptions) :
    RenderTemplateParams o (some t) syncPolicy templateOptions [] = (some t, none) := rfl

/-- C7: `RenderTemplateParams` fails with the invalid-input error whenever
the template is nil, and on every path that returns an error the object
component of the result is nil — an error and a rendered object are never
returned together. -/
theorem C7_error_paths_no_object :
    (∀ (o : SerdeOracle) (syncPolicy : Option ApplicationSetSyncPolicy)
        (templateOptions : Option ApplicationSetTemplateOptions) (params : Params),
        RenderTemplateParams o none syncPolicy templateOptions params =
          (none, some RenderError.invalidInput))
    ∧ (∀ (o : SerdeOracle) (tmpl : Option Application)
        (syncPolicy : Option ApplicationSetSyncPolicy)
        (templateOptions : Option ApplicationSetTemplateOptions) (params : Params)
        (e : RenderError),
        (RenderTemplateParams o tmpl syncPolicy templateOptions params).2 = some e →
        (RenderTemplateParams o tmpl syncPolicy templateOptions params).1 = none) := by
  refine ⟨fun o sp topts params => rfl, ?_⟩
  intro o tmpl sp topts params e h
  cases tmpl with
  | none => rfl
  | some t =>
    simp only [RenderTemplateParams] at h ⊢
    by_cases hlen : (params.length == 0) = true
    · rw [if_pos hlen] at h
      exact absurd h (by simp)
    · rw [if_neg hlen] at h ⊢
      cases hbr : (if !gotemplateEnabled topts then renderFastPath o t params
                   else renderGoTemplatePath o t params) with
      | error e2 => rfl
      | ok r =>
        rw [hbr] at h
        exact absurd h (by simp)

/-- Closed witness for C7: the nil-template failure carries no object. -/
theorem C7_error_paths_no_object_witness :
    (RenderTemplateParams oracleStub none none none []).1 = none :=
  C7_error_paths_no_object.2 oracleStub none none none [] RenderError.invalidInput rfl

/-- C1: every successful render on the non-fast path returns the finalizer
rule applied to the freshly deserialized object; the rule sets the
finalizers to exactly the one-element list `[resourcesFinalizerName]` when
preservation is not requested and the list was nil or empty, returns any
pre-existing non-empty list identically (no removal, reordering, or
appending), and changes nothing when preservation is requested. -/
theorem C1_finalizer_rule :
    (∀ (o : SerdeOracle) (t : Application) (sp : Option ApplicationSetSyncPolicy)
        (topts : Option ApplicationSetTemplateOptions) (params : Params)
        (r : Application),
        params ≠ [] →
        RenderTemplateParams o (some t) sp topts params = (some r, none) →
        ∃ replaced, r = addFinalizer sp replaced)
    ∧ (∀ (sp : Option ApplicationSetSyncPolicy) (app : Application),
        (sp = none ∨ ∃ p, sp = some p ∧ p.PreserveResourcesOnDeletion = false) →
        (app.Finalizers = none ∨ app.Finalizers = some []) →
        addFinalizer sp app = { app with Finalizers := some [resourcesFinalizerName] })
    ∧ (∀ (sp : Option ApplicationSetSyncPolicy) (app : Application) (l : List String),
        app.Finalizers = some l → l ≠ [] → addFinalizer sp app = app)
    ∧ (∀ (p : ApplicationSetSyncPolicy) (app : Application),
        p.PreserveResourcesOnDeletion = true → addFinalizer (some p) app = app) := by
  refine ⟨?_, ?_, ?_, ?_⟩
  · intro o t sp topts params r hne hr
    simp only [RenderTemplateParams] at hr
    have hlen : (params.length == 0) ≠ true := by
      cases params with
      | nil => exact absurd rfl hne
      | cons a l => simp
    rw [if_neg hlen] at hr
    cases hbr : (if !gotemplateEnabled topts then renderFastPath o t params
                 else renderGoTemplatePath o t params) with
    | error e2 =>
      rw [hbr] at hr
      exact absurd hr (by simp)
    | ok rep =>
      rw [hbr] at hr
      simp only [Prod.mk.injEq, Option.some.injEq] at hr
      exact ⟨rep, hr.1.symm⟩
  · intro sp app hsp happ
    have hneed : finalizerNeeded sp app = true := by
      rw [finalizerNeeded.eq_def]
      rcases hsp with rfl | ⟨p, rfl, hp⟩
      · rcases happ with h | h <;> simp [h]
      · rcases happ with h | h <;> simp [h, hp]
    rw [addFinalizer, if_pos hneed]
  · intro sp app l hl hne
    have hneed : finalizerNeeded sp app = false := by
      rw [finalizerNeeded.eq_def, hl]
      cases l with
      | nil => exact absurd rfl hne
      | cons a t => simp
    rw [addFinalizer, hneed]
    simp
  · intro p app hp
    have hneed : finalizerNeeded (some p) app = false := by
      rw [finalizerNeeded.eq_def]
      simp [hp]
    rw [addFinalizer, hneed]
    simp

/-- Closed witness for C1, exercising each branch of the finalizer rule and
one full render through the stub oracle. -/
theorem C1_finalizer_rule_witness :
    (∃ replaced, Application.mk (some [resourcesFinalizerName]) = addFinalizer none replaced)
    ∧ addFinalizer none ⟨none⟩ = ⟨some [resourcesFinalizerName]⟩
    ∧ addFinalizer (some ⟨false⟩) ⟨some []⟩ = ⟨some [resourcesFinalizerName]⟩
    ∧ addFinalizer none ⟨some ["keep"]⟩ = ⟨some ["keep"]⟩
    ∧ addFinalizer (some ⟨true⟩) ⟨none⟩ = ⟨none⟩ := by
  obtain ⟨h1, h2, h3, h4⟩ := C1_finalizer_rule
  refine ⟨?_, ?_, ?_, ?_, ?_⟩
  · exact h1 oracleStub ⟨none⟩ none none [(['x'], ['v'])] ⟨some [resourcesFinalizerName]⟩
      (by simp) (by decide)
  · exact h2 none ⟨none⟩ (Or.inl rfl) (Or.inl rfl)
  · exact h2 (some ⟨false⟩) ⟨some []⟩ (Or.inr ⟨⟨false⟩, rfl, rfl⟩) (Or.inr rfl)
  · exact h3 none ⟨some ["keep"]⟩ ["keep"] rfl (by simp)
  · exact h4 ⟨true⟩ ⟨none⟩ rfl

/-- C3: `RenderTemplateParams` dispatches on
`templateOptions.GotemplateEnabled` — absent or false selects JSON encoding
plus the escaping substitutor (invoked with `allowUnresolved = true` in
`renderFastPath`), true selects YAML encoding plus the go-template
evaluator — and, because the substitutor is always invoked with
`allowUnresolved = true`, no invocation of `RenderTemplateParams` ever
returns an unresolved-variable error. -/
theorem C3_dispatch_no_unresolved :
    (∀ (o : SerdeOracle) (t : Application) (sp : Option ApplicationSetSyncPolicy)
        (topts : Option ApplicationSetTemplateOptions) (params : Params),
        (topts = none ∨ topts = some ⟨false⟩) → params ≠ [] →
        RenderTemplateParams o (some t) sp topts params =
          (match renderFastPath o t params with
           | Except.error e => (none, some e)
           | Except.ok r => (some (addFinalizer sp r), none)))
    ∧ (∀ (o : SerdeOracle) (t : Application) (sp : Option ApplicationSetSyncPolicy)
        (params : Params),
        params ≠ [] →
        RenderTemplateParams o (some t) sp (some ⟨true⟩) params =
          (match renderGoTemplatePath o t params with
           | Except.error e => (none, some e)
           | Except.ok r => (some (addFinalizer sp r), none)))
    ∧ (∀ (o : SerdeOracle) (tmpl : Option Application)
        (sp : Option ApplicationSetSyncPolicy)
        (topts : Option ApplicationSetTemplateOptions) (params : Params)
        (tg : List Char),
        (RenderTemplateParams o tmpl sp topts params).2 ≠
          some (RenderError.unresolvedVar tg)) := by
  refine ⟨?_, ?_, ?_⟩
  · intro o t sp topts params hopt hne
    have hg : gotemplateEnabled topts = false := by
      rcases hopt with rfl | rfl <;> rfl
    have hlen : (params.length == 0) ≠ true := by
      cases params with
      | nil => exact absurd rfl hne
      | cons a l => simp
    simp only [RenderTemplateParams]
    rw [if_neg hlen, hg]
    simp
  · intro o t sp params hne
    have hlen : (params.length == 0) ≠ true := by
      cases params with
      | nil => exact absurd rfl hne
      | cons a l => simp
    simp only [RenderTemplateParams]
    rw [if_neg hlen]
    simp [gotemplateEnabled]
  · intro o tmpl sp topts params tg
    cases tmpl with
    | none => simp [RenderTemplateParams]
    | some t =>
      simp only [RenderTemplateParams]
      by_cases hlen : (params.length == 0) = true
      · rw [if_pos hlen]
        simp
      · rw [if_neg hlen]
        by_cases hgo : (!gotemplateEnabled topts) = true
        · rw [if_pos hgo]
          cases hbr : renderFastPath o t params with
          | error e =>
            have hne := renderFastPath_no_unresolved o t params tg
            rw [hbr] at hne
            intro hcon
            simp only [Option.some.injEq] at hcon
            exact hne (by rw [hcon])
          | ok r => simp
        · rw [if_neg hgo]
          cases hbr : renderGoTemplatePath o t params with
          | error e =>
            have hne := renderGoTemplatePath_no_unresolved o t params tg
            rw [hbr] at hne
            intro hcon
            simp only [Option.some.injEq] at hcon
            exact hne (by rw [hcon])
          | ok r => simp

/-- Closed witness for C3: a concrete dispatch through the stub oracle with
the options absent. -/
theorem C3_dispatch_no_unresolved_witness :
    RenderTemplateParams oracleStub (some ⟨none⟩) none none [(['x'], ['v'])] =
      (match renderFastPath oracleStub ⟨none⟩ [(['x'], ['v'])] with
       | Except.error e => (none, some e)
       | Except.ok r => (some (addFinalizer none r), none)) :=
  C3_dispatch_no_unresolved.1 oracleStub ⟨none⟩ none none [(['x'], ['v'])]
    (Or.inl rfl) (by simp)

/-- C2: every resolved replacement value over the named control characters
and printable ASCII decodes back to itself after the substitutor's
escaping (`strconv.Quote` body) followed by JSON string decoding; on the
concrete spec example, the serialized field `"\x7b\x7bx\x7d\x7d"` parses to
a one-token template, substituting `x := a\nb"c` produces the escaped JSON
text `"a\\nb\\"c"`, and decoding its string content restores exactly
`a\nb"c` — no corrupted or split value. -/
theorem C2_escaping :
    (∀ s : List Char, (∀ c ∈ s, jsonSafeChar c = true) →
        jsonUnescapeChars (goQuoteBody s) = some s)
    ∧ parseSegs ("\x22\x7b\x7bx\x7d\x7d\x22".data) =
        some [Seg.text ['"'], Seg.tag ['x'], Seg.text ['"']]
    ∧ replaceWithFastTemplate [Seg.text ['"'], Seg.tag ['x'], Seg.text ['"']]
        [(['x'], "a\nb\x22c".data)] true =
        ('"' :: ("a\\nb\\\x22c".data ++ ['"']), none)
    ∧ jsonUnescapeChars ("a\\nb\\\x22c".data) = some ("a\nb\x22c".data) := by
  refine ⟨fun s h => jsonUnescape_goQuoteBody s h, by decide, by decide, by decide⟩

/-- Closed witness for C2: the round-trip at the spec's example value. -/
theorem C2_escaping_witness :
    jsonUnescapeChars (goQuoteBody ("a\nb\x22c".data)) = some ("a\nb\x22c".data) :=
  C2_escaping.1 ("a\nb\x22c".data) (by decide)

/-- C5: with `allowUnresolved = true` an unresolved or empty token is
written back verbatim, delimiters included and inner content untrimmed;
a template all of whose tokens are unresolved substitutes to exactly its
own text (so a second pass over the output with the same mapping is the
same computation and returns the same text — idempotence on unresolved
tokens); and the concrete template `\x7b\x7bunknown\x7d\x7d` is returned
literally. -/
theorem C5_unresolved_passthrough :
    (∀ (m : Params) (tg : List Char) (rest : List Seg),
        tagUnresolved m tg = true →
        execSegs m true (Seg.tag tg :: rest) =
          ('{' :: '{' :: (tg ++ '}' :: '}' :: (execSegs m true rest).1),
            (execSegs m true rest).2))
    ∧ (∀ (m : Params) (s : List Char) (segs : List Seg),
        parseSegs s = some segs →
        (∀ tg ∈ segTags segs, tagUnresolved m tg = true) →
        fastSubstitute s m true = some (s, none))
    ∧ fastSubstitute ("\x7b\x7bunknown\x7d\x7d".data) [(['y'], ['v'])] true =
        some ("\x7b\x7bunknown\x7d\x7d".data, none) := by
  refine ⟨?_, ?_, by decide⟩
  · intro m tg rest h
    rw [execSegs_tag_unresolved m true tg rest h, if_pos rfl]
  · intro m s segs hp hall
    exact fastSubstitute_all_unresolved m s segs hp hall

/-- Closed witness for C5: a mixed template whose only token is unresolved
passes through unchanged. -/
theorem C5_unresolved_passthrough_witness :
    fastSubstitute ("a\x7b\x7b unknown \x7d\x7db".data) [(['y'], ['v'])] true =
      some ("a\x7b\x7b unknown \x7d\x7db".data, none) :=
  C5_unresolved_passthrough.2.1 [(['y'], ['v'])] ("a\x7b\x7b unknown \x7d\x7db".data)
    [Seg.text ['a'], Seg.tag " unknown ".data, Seg.text ['b']] (by decide) (by decide)

/-- C6: under the `missingkey=zero` option fixed by the code, a go-template
reference to a key absent from the replacement map renders as the empty
string; execution of the modelled fragment always succeeds, so
`replaceWithGoTemplate` with the code's parse options never reports an
execution error for a missing key. -/
theorem C6_missing_key_zero :
    (∀ (m : Params) (k : List Char), lookupParam m k = none →
        goTemplateExecute MissingKeyPolicy.zero m [GoNode.field k] = Except.ok [])
    ∧ (∀ (m : Params) (nodes : List GoNode),
        ∃ out, goTemplateExecute MissingKeyPolicy.zero m nodes = Except.ok out)
    ∧ (∀ (m : Params) (nodes : List GoNode),
        (replaceWithGoTemplate ⟨MissingKeyPolicy.zero, nodes⟩ m).2 = none) := by
  refine ⟨?_, fun m nodes => goTemplateExecute_zero_ok m nodes, ?_⟩
  · intro m k hl
    simp [goTemplateExecute, lookupFieldValue, hl, Except.map]
  · intro m nodes
    obtain ⟨out, hout⟩ := replaceGo_zero_ok nodes m
    rw [hout]

/-- Closed witness for C6: a reference to the absent key `x` renders empty. -/
theorem C6_missing_key_zero_witness :
    goTemplateExecute MissingKeyPolicy.zero [(['y'], ['v'])] [GoNode.field ['x']] =
      Except.ok [] :=
  C6_missing_key_zero.1 [(['y'], ['v'])] ['x'] (by decide)

/-- C8: with `allowUnresolved = false`, whenever some token's trimmed key is
empty or absent from the mapping, `replaceWithFastTemplate` returns an
unresolved-variable error identifying an unresolved token of the template,
together with the empty output string — no partial output. -/
theorem C8_strict_unresolved (m : Params) (segs : List Seg) :
    (∃ tg ∈ segTags segs, tagUnresolved m tg = true) →
    ∃ tg, tg ∈ segTags segs ∧ tagUnresolved m tg = true ∧
      replaceWithFastTemplate segs m false =
        ([], some (RenderError.unresolvedVar tg)) := by
  intro hex
  have hne : unresolvedTags m segs ≠ [] := by
    obtain ⟨tg, htg, hu⟩ := hex
    intro hcon
    have hmem : tg ∈ unresolvedTags m segs := by
      simp only [unresolvedTags]
      exact List.mem_filter.mpr ⟨htg, hu⟩
    rw [hcon] at hmem
    cases hmem
  have hg := List.getLast?_eq_getLast _ hne
  have hmem : (unresolvedTags m segs).getLast hne ∈ unresolvedTags m segs :=
    List.getLast_mem hne
  simp only [unresolvedTags] at hmem
  have hmem2 := List.mem_filter.mp hmem
  refine ⟨(unresolvedTags m segs).getLast hne, hmem2.1, hmem2.2, ?_⟩
  have h2 : (execSegs m false segs).2 =
      some (RenderError.unresolvedVar ((unresolvedTags m segs).getLast hne)) := by
    rw [execSegs_false_err m segs, hg]
    rfl
  simp only [replaceWithFastTemplate, h2]

/-- Closed witness for C8: a single unresolved token fails with its error
and empty output. -/
theorem C8_strict_unresolved_witness :
    ∃ tg, tg ∈ segTags [Seg.tag "u".data] ∧ tagUnresolved [] tg = true ∧
      replaceWithFastTemplate [Seg.tag "u".data] [] false =
        ([], some (RenderError.unresolvedVar tg)) :=
  C8_strict_unresolved [] [Seg.tag "u".data] ⟨"u".data, by decide, by decide⟩

/-- C10: strict substitution scans the whole template — the error returned
is the one recorded for the last unresolved token in scan order (each
unresolved token overwrites `unresolvedErr`), and resolved tokens after an
unresolved one are still substituted into the intermediate output that the
error path then discards. -/
theorem C10_last_unresolved :
    (∀ (m : Params) (segs : List Seg) (h : unresolvedTags m segs ≠ []),
        replaceWithFastTemplate segs m false =
          ([], some (RenderError.unresolvedVar ((unresolvedTags m segs).getLast h))))
    ∧ execSegs [(['x'], ['v'])] false
        [Seg.tag "u1".data, Seg.text ['-'], Seg.tag ['x'], Seg.tag "u2".data] =
      (['-', 'v'], some (RenderError.unresolvedVar ("u2".data))) := by
  refine ⟨?_, by decide⟩
  intro m segs h
  have hg := List.getLast?_eq_getLast _ h
  have h2 : (execSegs m false segs).2 =
      some (RenderError.unresolvedVar ((unresolvedTags m segs).getLast h)) := by
    rw [execSegs_false_err m segs, hg]
    rfl
  simp only [replaceWithFastTemplate, h2]

/-- Closed witness for C10: with two unresolved tokens the reported error
names the second one. -/
theorem C10_last_unresolved_witness :
    replaceWithFastTemplate [Seg.tag "u1".data, Seg.tag "u2".data] [] false =
      ([], some (RenderError.unresolvedVar ("u2".data))) := by
  have h := C10_last_unresolved.1 [] [Seg.tag "u1".data, Seg.tag "u2".data] (by decide)
  rw [h]
  decide

theorem any_not_found (l : List ApplicationSetGenerator) :
    l.any (fun g => !generatorFieldFound g) =
      l.any (fun g => g.slots.all (fun s => s.isNone)) := by
  induction l with
  | nil => rfl
  | cons g rest ih =>
    rw [List.any_cons, List.any_cons, ih, generatorFieldFound, not_any_isSome]

theorem invalidGenerators_flag (parse : String → Option (List (String × Json)))
    (info : ApplicationSet) :
    (invalidGenerators parse info).1 =
      info.generators.any (fun g => g.slots.all (fun s => s.isNone)) := by
  rw [invalidGenerators, invalidGenerators_foldl_flag parse info]
  have henum : info.generators.enum = List.enumFrom 0 info.generators := rfl
  rw [henum, any_enumFrom (fun g => !generatorFieldFound g) info.generators 0,
    any_not_found]
  simp

theorem addInvalid_spec_fail
    (parse : String → Option (List (String × Json))) (names : List String)
    (info : ApplicationSet) (idx : Nat) (values : List (String × Json))
    (hp : parse (lookupStringMap info.annotations lastAppliedConfigKey) = some values)
    (hspec : (values.lookup "spec").bind asObj = none) :
    addInvalidGeneratorNames parse names info idx = names := by
  simp only [addInvalidGeneratorNames, hp, hspec]

theorem addInvalid_generators_fail
    (parse : String → Option (List (String × Json))) (names : List String)
    (info : ApplicationSet) (idx : Nat) (values spec : List (String × Json))
    (hp : parse (lookupStringMap info.annotations lastAppliedConfigKey) = some values)
    (hspec : (values.lookup "spec").bind asObj = some spec)
    (hgens : (spec.lookup "generators").bind asArr = none) :
    addInvalidGeneratorNames parse names info idx = names := by
  simp only [addInvalidGeneratorNames, hp, hspec, hgens]

theorem addInvalid_index_oob
    (parse : String → Option (List (String × Json))) (names : List String)
    (info : ApplicationSet) (idx : Nat) (values spec : List (String × Json))
    (gens : List Json)
    (hp : parse (lookupStringMap info.annotations lastAppliedConfigKey) = some values)
    (hspec : (values.lookup "spec").bind asObj = some spec)
    (hgens : (spec.lookup "generators").bind asArr = some gens)
    (hlen : gens.length ≤ idx) :
    addInvalidGeneratorNames parse names info idx = names := by
  simp only [addInvalidGeneratorNames, hp, hspec, hgens]
  rw [if_pos hlen]

theorem addInvalid_elem_not_obj
    (parse : String → Option (List (String × Json))) (names : List String)
    (info : ApplicationSet) (idx : Nat) (values spec : List (String × Json))
    (gens : List Json)
    (hp : parse (lookupStringMap info.annotations lastAppliedConfigKey) = some values)
    (hspec : (values.lookup "spec").bind asObj = some spec)
    (hgens : (spec.lookup "generators").bind asArr = some gens)
    (hlen : ¬gens.length ≤ idx)
    (helem : (gens.get? idx).bind asObj = none) :
    addInvalidGeneratorNames parse names info idx = names := by
  simp only [addInvalidGeneratorNames, hp, hspec, hgens]
  rw [if_neg hlen]
  simp only [helem]

/-- C9: the inspector's invalid flag is true exactly when some generator
record has every variant slot nil, and every enumerated name-recovery
failure mode leaves the name set unchanged, never raising an error: a
missing or malformed annotation (parse failure), a missing or wrongly
shaped `spec`, a missing or wrongly shaped `generators`, an out-of-range
index, and a non-mapping element at the index each recover nothing;
recovery in general adds at most one name; a failed annotation parse
yields the flag with an empty name set; and concretely a malformed
annotation with one all-nil record gives `(true, \x5b\x5d)`. -/
theorem C9_inspector :
    (∀ (parse : String → Option (List (String × Json))) (info : ApplicationSet),
        (invalidGenerators parse info).1 =
          info.generators.any (fun g => g.slots.all (fun s => s.isNone)))
    ∧ (∀ (parse : String → Option (List (String × Json))) (names : List String)
        (info : ApplicationSet) (idx : Nat),
        parse (lookupStringMap info.annotations lastAppliedConfigKey) = none →
        addInvalidGeneratorNames parse names info idx = names)
    ∧ (∀ (parse : String → Option (List (String × Json))) (names : List String)
        (info : ApplicationSet) (idx : Nat) (values : List (String × Json)),
        parse (lookupStringMap info.annotations lastAppliedConfigKey) = some values →
        (values.lookup "spec").bind asObj = none →
        addInvalidGeneratorNames parse names info idx = names)
    ∧ (∀ (parse : String → Option (List (String × Json))) (names : List String)
        (info : ApplicationSet) (idx : Nat) (values spec : List (String × Json)),
        parse (lookupStringMap info.annotations lastAppliedConfigKey) = some values →
        (values.lookup "spec").bind asObj = some spec →
        (spec.lookup "generators").bind asArr = none →
        addInvalidGeneratorNames parse names info idx = names)
    ∧ (∀ (parse : String → Option (List (String × Json))) (names : List String)
        (info : ApplicationSet) (idx : Nat) (values spec : List (String × Json))
        (gens : List Json),
        parse (lookupStringMap info.annotations lastAppliedConfigKey) = some values →
        (values.lookup "spec").bind asObj = some spec →
        (spec.lookup "generators").bind asArr = some gens →
        gens.length ≤ idx →
        addInvalidGeneratorNames parse names info idx = names)
    ∧ (∀ (parse : String → Option (List (String × Json))) (names : List String)
        (info : ApplicationSet) (idx : Nat) (values spec : List (String × Json))
        (gens : List Json),
        parse (lookupStringMap info.annotations lastAppliedConfigKey) = some values →
        (values.lookup "spec").bind asObj = some spec →
        (spec.lookup "generators").bind asArr = some gens →
        ¬gens.length ≤ idx →
        (gens.get? idx).bind asObj = none →
        addInvalidGeneratorNames parse names info idx = names)
    ∧ (∀ (parse : String → Option (List (String × Json))) (names : List String)
        (info : ApplicationSet) (idx : Nat),
        addInvalidGeneratorNames parse names info idx = names ∨
        ∃ k, addInvalidGeneratorNames parse names info idx = insertName k names)
    ∧ (∀ (parse : String → Option (List (String × Json))) (info : ApplicationSet),
        parse (lookupStringMap info.annotations lastAppliedConfigKey) = none →
        invalidGenerators parse info =
          (info.generators.any (fun g => g.slots.all (fun s => s.isNone)), []))
    ∧ invalidGenerators (fun _ => none)
        ⟨"appset", [(lastAppliedConfigKey, "not json")], [⟨[none, none, none]⟩]⟩ =
        (true, []) := by
  refine ⟨invalidGenerators_flag, addInvalid_parse_fail, addInvalid_spec_fail,
    addInvalid_generators_fail, addInvalid_index_oob, addInvalid_elem_not_obj,
    ?_, ?_, by decide⟩
  · intro parse names info idx
    simp only [addInvalidGeneratorNames]
    cases parse (lookupStringMap info.annotations lastAppliedConfigKey) with
    | none => exact Or.inl rfl
    | some values =>
      simp only []
      cases (values.lookup "spec").bind asObj with
      | none => exact Or.inl rfl
      | some spec =>
        simp only []
        cases (spec.lookup "generators").bind asArr with
        | none => exact Or.inl rfl
        | some generators =>
          simp only []
          by_cases hlen : generators.length ≤ idx
          · rw [if_pos hlen]
            exact Or.inl rfl
          · rw [if_neg hlen]
            cases (generators.get? idx).bind asObj with
            | none => exact Or.inl rfl
            | some generator =>
              simp only []
              cases generator with
              | nil => exact Or.inl rfl
              | cons kv rest => exact Or.inr ⟨kv.1, rfl⟩
  · intro parse info hparse
    have hflag := invalidGenerators_flag parse info
    have hnames := invalidGenerators_foldl_names_empty parse info hparse
      info.generators.enum (false, []) rfl
    have h2 : (invalidGenerators parse info).2 = [] := hnames
    have h3 : invalidGenerators parse info =
        ((invalidGenerators parse info).1, (invalidGenerators parse info).2) := rfl
    rw [h3, hflag, h2]

/-- Closed witness for C9: a parser failure on the annotation value recovers
no name. -/
theorem C9_inspector_witness :
    addInvalidGeneratorNames (fun _ => none) [] ⟨"appset", [], []⟩ 0 = [] :=
  C9_inspector.2.1 (fun _ => none) [] ⟨"appset", [], []⟩ 0 rfl
